import Mathlib

/-!
Shallow embedding of the File_Splitter repository's core
(`src/server/pdf-splitter.ts`, `src/server/storage.ts`, `src/server/routes.ts`).

Strings are handled through their character lists.  JavaScript string
operations (`split`, `trim`, `parseInt`) are embedded as executable Lean
functions over `List Char`.  PDF documents are modelled abstractly as lists
of pages (one value per page); "serializing" a sub-document is modelled as
the list of its pages, which is exactly the information the claims are
about.
-/

namespace FileSplitter

/-- Whitespace recognised by JavaScript `String.prototype.trim` and by the
whitespace-skipping step of `parseInt` (ASCII subset: space, tab, LF, VT,
FF, CR). -/
def wsChar (c : Char) : Bool :=
  c = ' ' || c = '\t' || c = '\n' || c = '\x0b' || c = '\x0c' || c = '\r'

/-- JavaScript `s.trim()`: drop leading and trailing whitespace. -/
def trimChars (l : List Char) : List Char :=
  ((l.dropWhile wsChar).reverse.dropWhile wsChar).reverse

/-- JavaScript `s.split(sep)` for a one-character separator: the list of
(possibly empty) chunks between occurrences of `sep`.  `split` of the empty
string yields `[[]]`, as in JavaScript. -/
def splitOnChar (sep : Char) : List Char → List (List Char)
  | [] => [[]]
  | c :: cs =>
    if c = sep then [] :: splitOnChar sep cs
    else
      match splitOnChar sep cs with
      | [] => [[c]]
      | t :: ts => (c :: t) :: ts

/-- Value of a hexadecimal digit character, computed from its character
code (the digit alphabets `0-9`, `a-f`, `A-F` recognised by JavaScript's
`parseInt` for radix up to 16). -/
def hexVal (c : Char) : Option Nat :=
  if '0' ≤ c ∧ c ≤ '9' then some (c.toNat - '0'.toNat)
  else if 'a' ≤ c ∧ c ≤ 'f' then some (c.toNat - 'a'.toNat + 10)
  else if 'A' ≤ c ∧ c ≤ 'F' then some (c.toNat - 'A'.toNat + 10)
  else none

/-- Value of a digit character in the given radix (10 or 16 arise here). -/
def digitVal (radix : Nat) (c : Char) : Option Nat :=
  match hexVal c with
  | some v => if v < radix then some v else none
  | none => none

/-- JavaScript `parseInt(s)` with no radix argument: skip leading
whitespace, read an optional sign, detect a `0x`/`0X` prefix (radix 16,
else 10), then consume the longest run of digits in that radix; `none`
models `NaN` (no digits consumed). -/
def parseIntJS (l0 : List Char) : Option Int :=
  let l1 := l0.dropWhile wsChar
  let sgn : Int := if l1.head? = some '-' then -1 else 1
  let l2 := if l1.head? = some '-' ∨ l1.head? = some '+' then l1.tail else l1
  let hex : Bool := decide (l2.take 2 = ['0', 'x'] ∨ l2.take 2 = ['0', 'X'])
  let radix : Nat := if hex then 16 else 10
  let l3 := if hex then l2.drop 2 else l2
  let ds := l3.takeWhile (fun c => (digitVal radix c).isSome)
  if ds.isEmpty then none
  else some (sgn * ds.foldl (fun a c => a * (radix : Int) + ((digitVal radix c).getD 0 : Int)) 0)

/-- The loop `for (let i = start; i <= end; i++) range.push(i)`:
the integers from `a` to `b` inclusive, ascending (empty when `b < a`). -/
def intRangeIncl (a b : Int) : List Int :=
  (List.range (b + 1 - a).toNat).map (fun (i : Nat) => a + (i : Int))

/-- Body of the `for (const part of parts)` loop of `parseInstructions`
(src/server/pdf-splitter.ts lines 36-55), applied to one trimmed token. -/
def tokenResult (t : List Char) : Except String (List Int) :=
  if '-' ∈ t then
    -- Range like "1-3": split on '-', parse each trimmed piece,
    -- destructure the first two results as [start, end].
    let ps := (splitOnChar '-' t).map (fun p => parseIntJS (trimChars p))
    match ps.headD none, (ps.drop 1).headD none with
    | some a, some b =>
      if a > b ∨ a < 1 then .error ("Invalid range: " ++ String.mk t)
      else .ok (intRangeIncl a b)
    | _, _ => .error ("Invalid range: " ++ String.mk t)
  else
    -- Individual page like "5"
    match parseIntJS t with
    | some p =>
      if p < 1 then .error ("Invalid page number: " ++ String.mk t)
      else .ok [p]
    | none => .error ("Invalid page number: " ++ String.mk t)

/-- The token loop of `parseInstructions`: results accumulated in order, a
thrown error aborts the whole parse. -/
def parseParts : List (List Char) → Except String (List (List Int))
  | [] => .ok []
  | p :: ps =>
    match tokenResult p with
    | .error e => .error e
    | .ok g =>
      match parseParts ps with
      | .error e => .error e
      | .ok gs => .ok (g :: gs)

/-- Embeds `parseInstructions` (src/server/pdf-splitter.ts lines 32-59):
`instructions.split(',').map(s => s.trim())`, then the token loop. -/
def parseInstructions (s : String) : Except String (List (List Int)) :=
  parseParts ((splitOnChar ',' s.data).map trimChars)

/-! ## Splitter (src/server/pdf-splitter.ts lines 61-158)

A PDF document is modelled as the list of its pages (`List α`); the
serialized bytes of a sub-document are modelled by its page list, and
`size` by its page count.  `PDFDocument.load` on the uploaded buffer is
modelled by passing its outcome (`Except String (List α)`) as the input:
a well-formed buffer yields `.ok pages`, a malformed one `.error msg`. -/

/-- Node `path.parse(originalFilename).name` (posix): the part of the
filename after the last `/`, with its final extension removed.  A leading
dot (dotfile) or the basename `..` carries no extension. -/
def stemOf (s : String) : String :=
  let b := (splitOnChar '/' s.data).getLastD []
  if b = ['.', '.'] then String.mk b
  else if '.' ∈ b then
    let rev := b.reverse
    let afterDot := rev.takeWhile (fun c => c ≠ '.')
    let befDot := rev.drop (afterDot.length + 1)
    if befDot = [] then String.mk b else String.mk befDot.reverse
  else String.mk b

/-- JavaScript template interpolation of an array access that may be
`undefined` (as in `` `${range[0]}` `` on an empty array). -/
def jsShow : Option Int → String
  | some n => toString n
  | none => "undefined"

/-- Filename generation (src/server/pdf-splitter.ts lines 115-120). -/
def nameFor (base : String) (range : List Int) : String :=
  if range.length = 1 then base ++ "-page-" ++ jsShow range.head? ++ ".pdf"
  else base ++ "-pages-" ++ jsShow range.head? ++ "-" ++ jsShow range.getLast? ++ ".pdf"

/-- Embeds `newPdf.copyPages(pdfDoc, [idx])` for a single 0-based index: pdf-lib
indexes into the source's page array and throws when the index is out of
range (the thrown `TypeError`'s text is modelled by a generic message). -/
def copyPage (doc : List α) (idx : Int) : Except String α :=
  if h : 0 ≤ idx ∧ idx.toNat < doc.length then .ok (doc.get ⟨idx.toNat, h.2⟩)
  else .error "Page copy failed: page index out of bounds"

/-- The page-copy loop for one group (lines 107-110): each 1-based page
number is converted to 0-based before the copy. -/
def copyAll (doc : List α) : List Int → Except String (List α)
  | [] => .ok []
  | n :: ns =>
    match copyPage doc (n - 1) with
    | .error e => .error e
    | .ok p =>
      match copyAll doc ns with
      | .error e => .error e
      | .ok ps => .ok (p :: ps)

/-- Inner validation loop (lines 93-97): only `pageNum > totalPages` is
checked. -/
def validateGroup (totalPages : Nat) : List Int → Except String Unit
  | [] => .ok ()
  | n :: ns =>
    if n > (totalPages : Int) then
      .error ("Page " ++ toString n ++ " does not exist. PDF has " ++
        toString totalPages ++ " pages.")
    else validateGroup totalPages ns

/-- Outer validation loop (lines 92-98). -/
def validatePages (totalPages : Nat) : List (List Int) → Except String Unit
  | [] => .ok ()
  | r :: rs =>
    match validateGroup totalPages r with
    | .error e => .error e
    | .ok _ => validatePages totalPages rs

/-- One element of `results` (interface `SplitResult`). -/
structure SplitResult (α : Type) where
  filename : String
  data : List α
  pages : List Int
  size : Nat
deriving DecidableEq

/-- Interface `SplitPdfResult`; the zip is modelled as its ordered entry
list `(name, bytes)`. -/
structure SplitPdfResult (α : Type) where
  success : Bool
  results : List (SplitResult α)
  zipBuffer : Option (List (String × List α)) := none
  zipFilename : Option String := none
  error : Option String := none
deriving DecidableEq

/-- The per-group loop of `splitPdf` (lines 103-128): copy the pages of
each group into a fresh document, serialize, and name the output. -/
def buildResults (doc : List α) (base : String) :
    List (List Int) → Except String (List (SplitResult α))
  | [] => .ok []
  | r :: rs =>
    match copyAll doc r with
    | .error e => .error e
    | .ok ps =>
      match buildResults doc base rs with
      | .error e => .error e
      | .ok rest =>
        .ok ({ filename := nameFor base r, data := ps, pages := r,
               size := ps.length } :: rest)

/-- Embeds `splitPdf` (lines 84-158): load, validate, build outputs, optionally
zip; any thrown error is caught and returned as a failure value. -/
def splitPdf (loadResult : Except String (List α)) (ranges : List (List Int))
    (originalFilename : String) (returnZip : Bool) : SplitPdfResult α :=
  match loadResult with
  | .error e => { success := false, results := [], error := some e }
  | .ok doc =>
    match validatePages doc.length ranges with
    | .error e => { success := false, results := [], error := some e }
    | .ok _ =>
      match buildResults doc (stemOf originalFilename) ranges with
      | .error e => { success := false, results := [], error := some e }
      | .ok results =>
        if returnZip then
          { success := true
            results := results
            zipBuffer := some (results.map (fun r => (r.filename, r.data)))
            zipFilename := some (stemOf originalFilename ++ "-split.zip") }
        else { success := true, results := results }

/-- Embeds `splitPdfFromInstructions` (lines 61-82): parse, then delegate to
`splitPdf`; a parse error is caught and returned as a failure value. -/
def splitPdfFromInstructions (loadResult : Except String (List α))
    (instructions : String) (originalFilename : String) (returnZip : Bool) :
    SplitPdfResult α :=
  match parseInstructions instructions with
  | .error e => { success := false, results := [], error := some e }
  | .ok ranges => splitPdf loadResult ranges originalFilename returnZip

/-! ## Storage (src/server/storage.ts) and routes (src/server/routes.ts)

`MemStorage`'s `Map<string, PdfJob>` is modelled as an insertion-ordered
association list; `Map.set` replaces an existing key in place. -/

/-- The `PdfJob` entity (shared schema): `resultFiles`/`errorMessage` are
nullable columns, `none` models `null`. -/
structure PdfJob where
  id : String
  originalFilename : String
  instructions : String
  status : String
  resultFiles : Option (List String)
  errorMessage : Option String
  createdAt : Nat
deriving DecidableEq

/-- Embeds `Partial<PdfJob>`: every field optionally present (`none` = key
absent, so the spread `{...existing, ...updates}` keeps the old value). -/
structure PdfJobPatch where
  id : Option String := none
  originalFilename : Option String := none
  instructions : Option String := none
  status : Option String := none
  resultFiles : Option (Option (List String)) := none
  errorMessage : Option (Option String) := none
  createdAt : Option Nat := none
deriving DecidableEq

/-- The object spread `{ ...existing, ...updates }`. -/
def mergePatch (j : PdfJob) (p : PdfJobPatch) : PdfJob :=
  { id := p.id.getD j.id
    originalFilename := p.originalFilename.getD j.originalFilename
    instructions := p.instructions.getD j.instructions
    status := p.status.getD j.status
    resultFiles := p.resultFiles.getD j.resultFiles
    errorMessage := p.errorMessage.getD j.errorMessage
    createdAt := p.createdAt.getD j.createdAt }

/-- The in-memory job map. -/
abbrev JobStore := List (String × PdfJob)

/-- Embeds `Map.get`. -/
def mapGet (m : JobStore) (k : String) : Option PdfJob :=
  match m with
  | [] => none
  | (k', v) :: rest => if k' = k then some v else mapGet rest k

/-- Embeds `Map.set`: replace in place if the key exists, else append. -/
def mapSet (m : JobStore) (k : String) (v : PdfJob) : JobStore :=
  match m with
  | [] => [(k, v)]
  | (k', v') :: rest =>
    if k' = k then (k, v) :: rest else (k', v') :: mapSet rest k v

/-- Embeds `MemStorage.createPdfJob` (storage.ts lines 39-51); `id` is the
`randomUUID()` value, `now` the `new Date()` timestamp. -/
def createPdfJob (store : JobStore) (id originalFilename instructions : String)
    (now : Nat) : PdfJob × JobStore :=
  let job : PdfJob :=
    { id := id, originalFilename := originalFilename,
      instructions := instructions, status := "processing",
      resultFiles := none, errorMessage := none, createdAt := now }
  (job, mapSet store id job)

/-- Embeds `MemStorage.getPdfJob` (storage.ts lines 53-55). -/
def getPdfJob (store : JobStore) (id : String) : Option PdfJob :=
  mapGet store id

/-- Embeds `MemStorage.updatePdfJob` (storage.ts lines 57-64). -/
def updatePdfJob (store : JobStore) (id : String) (patch : PdfJobPatch) :
    Option PdfJob × JobStore :=
  match mapGet store id with
  | none => (none, store)
  | some existing =>
    let updated := mergePatch existing patch
    (some updated, mapSet store id updated)

/-- A multipart upload as the handler sees it; `loadResult` is the outcome
of `PDFDocument.load` on `file.buffer`. -/
structure UploadedFile (α : Type) where
  originalname : String
  mimetype : String
  loadResult : Except String (List α)

/-- The request fields read by `POST /api/split-pdf`. -/
structure SplitRequest (α : Type) where
  file : Option (UploadedFile α)
  instructions : Option String

/-- The response the handler sends. -/
inductive RouteResponse (α : Type) where
  | badRequest (message : String)
  | serverError (message : String)
  | zipFile (filename : String) (entries : List (String × List α))

/-- One call on the storage interface (`IStorage` declares no delete
operation, so no delete constructor exists). -/
inductive StorageOp where
  | create (id : String) (job : PdfJob)
  | update (id : String) (patch : PdfJobPatch)
deriving DecidableEq

/-- Result of handling one request: response, final store, and the trace
of storage mutations performed. -/
structure HandlerOutcome (α : Type) where
  response : RouteResponse α
  store : JobStore
  ops : List StorageOp

/-- The update passed on success (routes.ts lines 55-58). -/
def completedPatch (files : List String) : PdfJobPatch :=
  { status := some "completed", resultFiles := some (some files) }

/-- The update passed on failure (routes.ts lines 67-70). -/
def failedPatch (msg : String) : PdfJobPatch :=
  { status := some "failed", errorMessage := some (some msg) }

/-- The `POST /api/split-pdf` handler (routes.ts lines 15-81): validate
the upload, create a job in "processing", split, then update the job once
to "completed" (with result filenames) or "failed" (with the captured
message, re-surfaced as the 500 response). -/
def handleSplitPdf (store : JobStore) (freshId : String) (now : Nat)
    (req : SplitRequest α) : HandlerOutcome α :=
  match req.file with
  | none => { response := .badRequest "No PDF file uploaded", store := store, ops := [] }
  | some file =>
    if file.mimetype ≠ "application/pdf" then
      { response := .badRequest "File must be a PDF", store := store, ops := [] }
    else
      match req.instructions with
      | none => { response := .badRequest "Invalid instructions", store := store, ops := [] }
      | some instr =>
        if instr.length < 1 then
          { response := .badRequest "Invalid instructions", store := store, ops := [] }
        else
          let created := createPdfJob store freshId file.originalname instr now
          let job := created.1
          let store1 := created.2
          let sr := splitPdfFromInstructions file.loadResult instr file.originalname true
          if sr.success then
            let patch := completedPatch (sr.results.map (fun r => r.filename))
            { response := .zipFile (sr.zipFilename.getD "") (sr.zipBuffer.getD [])
              store := (updatePdfJob store1 job.id patch).2
              ops := [.create freshId job, .update freshId patch] }
          else
            let msg := match sr.error with
              | some e => if e = "" then "Failed to split PDF" else e
              | none => "Failed to split PDF"
            let patch := failedPatch msg
            { response := .serverError msg
              store := (updatePdfJob store1 job.id patch).2
              ops := [.create freshId job, .update freshId patch] }

/-! ## Decimal numerals

`natChars n` is the usual base-10 numeral of `n` as a character list (the
string a human writes for page `n`).  It is spec-side vocabulary used to
state claims about well-formed tokens; fuel keeps it structurally
recursive so that concrete instances evaluate by `rfl`. -/

/-- The decimal digit character for `d < 10`. -/
def digitChar10 (d : Nat) : Char :=
  match d with
  | 0 => '0' | 1 => '1' | 2 => '2' | 3 => '3' | 4 => '4'
  | 5 => '5' | 6 => '6' | 7 => '7' | 8 => '8' | _ => '9'

/-- Fueled base-10 rendering. -/
def natCharsAux : Nat → Nat → List Char
  | 0, _ => []
  | fuel + 1, n =>
    if n < 10 then [digitChar10 n]
    else natCharsAux fuel (n / 10) ++ [digitChar10 (n % 10)]

/-- The base-10 numeral of `n`. -/
def natChars (n : Nat) : List Char := natCharsAux (n + 1) n

theorem natCharsAux_congr : ∀ f1 f2 n : Nat, n < f1 → n < f2 →
    natCharsAux f1 n = natCharsAux f2 n := by
  intro f1
  induction f1 with
  | zero => intro f2 n h1 _; omega
  | succ g1 ih =>
    intro f2 n h1 h2
    cases f2 with
    | zero => omega
    | succ g2 =>
      simp only [natCharsAux]
      by_cases h10 : n < 10
      · simp [h10]
      · have hd : n / 10 < n := Nat.div_lt_self (by omega) (by omega)
        simp only [if_neg h10]
        rw [ih g2 (n / 10) (by omega) (by omega)]

/-- The recurrence satisfied by `natChars`. -/
theorem natChars_eq (n : Nat) :
    natChars n =
      if n < 10 then [digitChar10 n]
      else natChars (n / 10) ++ [digitChar10 (n % 10)] := by
  have step : natCharsAux (n + 1) n =
      if n < 10 then [digitChar10 n]
      else natCharsAux n (n / 10) ++ [digitChar10 (n % 10)] := rfl
  unfold natChars
  rw [step]
  by_cases h10 : n < 10
  · simp [h10]
  · have hd : n / 10 < n := Nat.div_lt_self (by omega) (by omega)
    simp only [if_neg h10]
    rw [natCharsAux_congr n (n / 10 + 1) (n / 10) (by omega) (by omega)]

theorem natChars_ne_nil (n : Nat) : natChars n ≠ [] := by
  rw [natChars_eq n]
  by_cases h10 : n < 10 <;> simp [h10]

theorem natChars_digits (n : Nat) :
    ∀ c ∈ natChars n, ∃ d, d < 10 ∧ c = digitChar10 d := by
  induction n using Nat.strong_induction_on with
  | _ n ih =>
    rw [natChars_eq n]
    by_cases h10 : n < 10
    · simp only [if_pos h10, List.mem_singleton]
      intro c hc; exact ⟨n, h10, hc⟩
    · simp only [if_neg h10, List.mem_append, List.mem_singleton]
      intro c hc
      rcases hc with hc | hc
      · exact ih (n / 10) (Nat.div_lt_self (by omega) (by omega)) c hc
      · exact ⟨n % 10, Nat.mod_lt _ (by omega), hc⟩

theorem digitChar10_facts : ∀ d, d < 10 →
    wsChar (digitChar10 d) = false ∧ digitChar10 d ≠ '-' ∧ digitChar10 d ≠ '+' ∧
    digitChar10 d ≠ 'x' ∧ digitChar10 d ≠ 'X' ∧ digitChar10 d ≠ ',' ∧
    digitVal 10 (digitChar10 d) = some d := by
  intro d hd
  interval_cases d <;>
    exact ⟨by decide, by decide, by decide, by decide, by decide, by decide, by decide⟩

theorem natChars_foldl (n : Nat) : ∀ A : Int,
    (natChars n).foldl (fun a c => a * 10 + ((digitVal 10 c).getD 0 : Int)) A
      = A * 10 ^ (natChars n).length + n := by
  induction n using Nat.strong_induction_on with
  | _ n ih =>
    intro A
    rw [natChars_eq n]
    by_cases h10 : n < 10
    · simp only [if_pos h10, List.foldl_cons, List.foldl_nil, List.length_singleton]
      rw [(digitChar10_facts n h10).2.2.2.2.2.2]
      simp [Option.getD_some, pow_one]
    · have hd : n / 10 < n := Nat.div_lt_self (by omega) (by omega)
      simp only [if_neg h10, List.foldl_append, List.foldl_cons, List.foldl_nil,
        List.length_append, List.length_singleton]
      rw [ih (n / 10) hd A, (digitChar10_facts _ (Nat.mod_lt _ (by omega))).2.2.2.2.2.2]
      simp only [Option.getD_some]
      have key : ((n / 10 : Nat) : Int) * 10 + ((n % 10 : Nat) : Int) = (n : Int) := by
        omega
      rw [pow_succ, ← key]
      ring

/-- Every character of a numeral is a digit, hence none of the special
characters the parser looks for. -/
theorem natChars_no_special (n : Nat) :
    ∀ c ∈ natChars n, wsChar c = false ∧ c ≠ '-' ∧ c ≠ '+' ∧ c ≠ 'x' ∧
      c ≠ 'X' ∧ c ≠ ',' ∧ (digitVal 10 c).isSome = true := by
  intro c hc
  obtain ⟨d, hd, rfl⟩ := natChars_digits n c hc
  obtain ⟨h1, h2, h3, h4, h5, h6, h7⟩ := digitChar10_facts d hd
  exact ⟨h1, h2, h3, h4, h5, h6, by rw [h7]; rfl⟩

theorem parseIntJS_natChars (n : Nat) : parseIntJS (natChars n) = some ((n : Int)) := by
  obtain ⟨c0, rest, hcons⟩ : ∃ c0 rest, natChars n = c0 :: rest := by
    cases h : natChars n with
    | nil => exact absurd h (natChars_ne_nil n)
    | cons a t => exact ⟨a, t, rfl⟩
  have hdig := natChars_no_special n
  have h0 := hdig c0 (by rw [hcons]; exact List.mem_cons_self _ _)
  have hhex : ¬((c0 :: rest).take 2 = ['0', 'x'] ∨ (c0 :: rest).take 2 = ['0', 'X']) := by
    cases rest with
    | nil => simp
    | cons c1 r1 =>
      have h1 := hdig c1 (by rw [hcons]; exact List.mem_cons_of_mem _ (List.mem_cons_self _ _))
      simp only [List.take_succ_cons, List.take_zero]
      rintro (h | h) <;> simp only [List.cons.injEq] at h
      · exact h1.2.2.2.1 h.2.1
      · exact h1.2.2.2.2.1 h.2.1
  have htake : (c0 :: rest).takeWhile (fun c => (digitVal 10 c).isSome) = c0 :: rest := by
    rw [List.takeWhile_eq_self_iff]
    intro x hx
    exact (hdig x (by rw [hcons]; exact hx)).2.2.2.2.2.2
  have hm : ¬(c0 = '-') := h0.2.1
  have hmp : ¬(c0 = '-' ∨ c0 = '+') := by
    rintro (hc | hc)
    · exact h0.2.1 hc
    · exact h0.2.2.1 hc
  have hhexb : decide ((c0 :: rest).take 2 = ['0', 'x'] ∨
      (c0 :: rest).take 2 = ['0', 'X']) = false := decide_eq_false hhex
  have hfold := natChars_foldl n 0
  rw [hcons] at hfold
  unfold parseIntJS
  rw [hcons]
  simp only [List.dropWhile_cons, h0.1, Bool.false_eq_true, if_false, List.head?_cons,
    Option.some.injEq, if_neg hm, if_neg hmp, hhexb, htake, List.isEmpty_cons,
    one_mul, Nat.cast_ofNat]
  rw [hfold]
  simp

/-! ## Helper lemmas about the string primitives -/

theorem trimChars_eq_self {l : List Char} (h : ∀ c ∈ l, wsChar c = false) :
    trimChars l = l := by
  unfold trimChars
  have h1 : l.dropWhile wsChar = l := by
    cases l with
    | nil => rfl
    | cons a t => rw [List.dropWhile_cons, h a (List.mem_cons_self _ _)]; simp
  rw [h1]
  have h2 : l.reverse.dropWhile wsChar = l.reverse := by
    cases hr : l.reverse with
    | nil => rfl
    | cons a t =>
      have ha : a ∈ l := by
        rw [← List.mem_reverse, hr]; exact List.mem_cons_self _ _
      rw [List.dropWhile_cons, h a ha]; simp
  rw [h2, List.reverse_reverse]

theorem splitOnChar_ne_nil (c : Char) (l : List Char) : splitOnChar c l ≠ [] := by
  cases l with
  | nil => simp [splitOnChar]
  | cons a t =>
    simp only [splitOnChar]
    by_cases hac : a = c
    · simp [hac]
    · simp only [if_neg hac]
      cases splitOnChar c t <;> simp

theorem splitOnChar_of_not_mem {c : Char} {xs : List Char} (h : c ∉ xs) :
    splitOnChar c xs = [xs] := by
  induction xs with
  | nil => rfl
  | cons a t ih =>
    have hac : ¬(a = c) := fun e => h (e ▸ List.mem_cons_self a t)
    have ht : c ∉ t := fun m => h (List.mem_cons_of_mem _ m)
    simp only [splitOnChar, if_neg hac, ih ht]

theorem splitOnChar_append {c : Char} {xs ys : List Char} (h : c ∉ xs) :
    splitOnChar c (xs ++ c :: ys) = xs :: splitOnChar c ys := by
  induction xs with
  | nil => simp [splitOnChar]
  | cons a t ih =>
    have hac : ¬(a = c) := fun e => h (e ▸ List.mem_cons_self a t)
    have ht : c ∉ t := fun m => h (List.mem_cons_of_mem _ m)
    simp only [List.cons_append, splitOnChar, if_neg hac, List.append_eq, ih ht]

theorem splitOnChar_length_of_mem {c : Char} {l : List Char} (h : c ∈ l) :
    2 ≤ (splitOnChar c l).length := by
  induction l with
  | nil => cases h
  | cons a t ih =>
    simp only [splitOnChar]
    by_cases hac : a = c
    · simp only [if_pos hac, List.length_cons]
      have := List.length_pos.mpr (splitOnChar_ne_nil c t)
      omega
    · have ht : c ∈ t := by
        cases List.mem_cons.mp h with
        | inl e => exact absurd e.symm hac
        | inr m => exact m
      simp only [if_neg hac]
      cases hs : splitOnChar c t with
      | nil => exact absurd hs (splitOnChar_ne_nil c t)
      | cons p ps =>
        have := ih ht
        rw [hs] at this
        simpa using this

/-- First dash-delimited piece of a token. -/
def piece0 (t : List Char) : List Char := (splitOnChar '-' t).headD []

/-- Second dash-delimited piece of a token. -/
def piece1 (t : List Char) : List Char := ((splitOnChar '-' t).drop 1).headD []

/-- For a token containing `'-'`, `tokenResult` is determined by the first
two dash-delimited pieces alone. -/
theorem tokenResult_dash {t : List Char} (h : '-' ∈ t) :
    tokenResult t =
      match parseIntJS (trimChars (piece0 t)), parseIntJS (trimChars (piece1 t)) with
      | some a, some b =>
        if a > b ∨ a < 1 then .error ("Invalid range: " ++ String.mk t)
        else .ok (intRangeIncl a b)
      | _, _ => .error ("Invalid range: " ++ String.mk t) := by
  unfold tokenResult
  rw [if_pos h]
  have hlen := splitOnChar_length_of_mem h
  obtain ⟨p, q, ps, hsp⟩ : ∃ p q ps, splitOnChar '-' t = p :: q :: ps := by
    cases hs : splitOnChar '-' t with
    | nil => rw [hs] at hlen; simp at hlen
    | cons p rest =>
      cases rest with
      | nil => rw [hs] at hlen; simp at hlen
      | cons q ps => exact ⟨p, q, ps, rfl⟩
  rw [hsp]
  simp [piece0, piece1, hsp]

theorem intRangeIncl_natCast (a b : Nat) (h : a ≤ b) :
    intRangeIncl (a : Int) (b : Int) =
      (List.range (b + 1 - a)).map (fun k => ((a + k : Nat) : Int)) := by
  unfold intRangeIncl
  have ht : ((b : Int) + 1 - (a : Int)).toNat = b + 1 - a := by omega
  rw [ht]
  exact List.map_congr_left (fun k _ => by push_cast; ring)

/-- A bare numeral token parses to the one-element group. -/
theorem tokenResult_natChars {n : Nat} (h : 1 ≤ n) :
    tokenResult (natChars n) = .ok [(n : Int)] := by
  have hnd : '-' ∉ natChars n := fun hm =>
    (natChars_no_special n _ hm).2.1 rfl
  unfold tokenResult
  rw [if_neg hnd]
  simp only [parseIntJS_natChars n]
  rw [if_neg (by exact_mod_cast Nat.not_lt.mpr h)]

/-- A numeral-dash-numeral token parses to the ascending inclusive range. -/
theorem tokenResult_range {a b : Nat} (h1 : 1 ≤ a) (h2 : a ≤ b) :
    tokenResult (natChars a ++ '-' :: natChars b) = .ok (intRangeIncl a b) := by
  have hna : '-' ∉ natChars a := fun hm => (natChars_no_special a _ hm).2.1 rfl
  have hnb : '-' ∉ natChars b := fun hm => (natChars_no_special b _ hm).2.1 rfl
  have hmem : '-' ∈ natChars a ++ '-' :: natChars b := by
    exact List.mem_append_right _ (List.mem_cons_self _ _)
  rw [tokenResult_dash hmem]
  have hsp : splitOnChar '-' (natChars a ++ '-' :: natChars b)
      = natChars a :: splitOnChar '-' (natChars b) := splitOnChar_append hna
  have hsb : splitOnChar '-' (natChars b) = [natChars b] := splitOnChar_of_not_mem hnb
  have hp0 : piece0 (natChars a ++ '-' :: natChars b) = natChars a := by
    unfold piece0; rw [hsp]; rfl
  have hp1 : piece1 (natChars a ++ '-' :: natChars b) = natChars b := by
    unfold piece1; rw [hsp, hsb]; rfl
  rw [hp0, hp1,
    trimChars_eq_self (fun c hc => (natChars_no_special a c hc).1),
    trimChars_eq_self (fun c hc => (natChars_no_special b c hc).1)]
  simp only [parseIntJS_natChars a, parseIntJS_natChars b]
  rw [if_neg (by omega)]

/-- Unrolling of the token loop: on success the group list pairs with the
token list 1:1 in order. -/
theorem parseParts_ok : ∀ (ps : List (List Char)) (gs : List (List Int)),
    parseParts ps = .ok gs →
    gs.length = ps.length ∧
      ∀ i (hi : i < ps.length) (hg : i < gs.length),
        tokenResult (ps.get ⟨i, hi⟩) = .ok (gs.get ⟨i, hg⟩) := by
  intro ps
  induction ps with
  | nil =>
    intro gs h
    simp only [parseParts, Except.ok.injEq] at h
    subst h
    exact ⟨rfl, fun i hi => by simp at hi⟩
  | cons p pt ih =>
    intro gs h
    simp only [parseParts] at h
    cases htok : tokenResult p with
    | error e => rw [htok] at h; simp at h
    | ok g =>
      rw [htok] at h
      cases hrest : parseParts pt with
      | error e => rw [hrest] at h; simp at h
      | ok gs' =>
        rw [hrest] at h
        simp only [Except.ok.injEq] at h
        subst h
        obtain ⟨hlen, hall⟩ := ih gs' hrest
        refine ⟨by simp [hlen], ?_⟩
        intro i hi hg
        cases i with
        | zero => simpa using htok
        | succ j =>
          simpa using hall j (by simpa using hi) (by simpa using hg)

/-! ## Claim theorems -/

/-- C1: on every instruction string on which `parse` succeeds, the groups
correspond 1:1, in order, to the comma-separated tokens (each trimmed): a
numeral token `N` yields the one-element group `[N]`, and a range token
`A-B` yields the single group `[A, A+1, ..., B]` in ascending order. -/
theorem parse_groups_match_tokens (s : String) (gs : List (List Int))
    (hok : parseInstructions s = .ok gs) :
    gs.length = ((splitOnChar ',' s.data).map trimChars).length ∧
    ∀ i (hi : i < ((splitOnChar ',' s.data).map trimChars).length)
        (hg : i < gs.length),
      (∀ n : Nat, 1 ≤ n →
        ((splitOnChar ',' s.data).map trimChars).get ⟨i, hi⟩ = natChars n →
        gs.get ⟨i, hg⟩ = [(n : Int)]) ∧
      (∀ a b : Nat, 1 ≤ a → a ≤ b →
        ((splitOnChar ',' s.data).map trimChars).get ⟨i, hi⟩
          = natChars a ++ '-' :: natChars b →
        gs.get ⟨i, hg⟩ = (List.range (b + 1 - a)).map (fun k => ((a + k : Nat) : Int))) := by
  unfold parseInstructions at hok
  obtain ⟨hlen, hall⟩ := parseParts_ok _ _ hok
  refine ⟨hlen, ?_⟩
  intro i hi hg
  constructor
  · intro n hn htok
    have h1 := hall i hi hg
    rw [htok, tokenResult_natChars hn] at h1
    injection h1 with h1
    exact h1.symm
  · intro a b ha hab htok
    have h1 := hall i hi hg
    rw [htok, tokenResult_range ha hab] at h1
    injection h1 with h1
    rw [← h1, intRangeIncl_natCast a b hab]

/-- Witness for C1 at the spec's example `"1-3,5"`: the second token is the
numeral `5` and its group is `[5]`; the first token is `1-3` and its group
is `[1, 2, 3]`. -/
theorem parse_groups_match_tokens_app :
    ([[1, 2, 3], [5]] : List (List Int)).get ⟨1, by decide⟩ = [(5 : Int)] ∧
    ([[1, 2, 3], [5]] : List (List Int)).get ⟨0, by decide⟩
      = (List.range (3 + 1 - 1)).map (fun k => ((1 + k : Nat) : Int)) := by
  have h := parse_groups_match_tokens "1-3,5" [[1, 2, 3], [5]] (by rfl)
  exact ⟨(h.2 1 (by decide) (by decide)).1 5 (by decide) (by rfl),
    (h.2 0 (by decide) (by decide)).2 1 3 (by decide) (by decide) (by rfl)⟩

/-- C3: a token containing `'-'` fails exactly when an endpoint does not
parse as an integer, or start > end, or start < 1, and then with message
`Invalid range: <token>`; a token without `'-'` fails exactly when it does
not parse as an integer ≥ 1, with message `Invalid page number: <token>`;
including the spec's four concrete cases. -/
theorem parse_failure_characterization :
    (∀ t : List Char, '-' ∈ t →
      ((∃ g, tokenResult t = .ok g) ↔
        ∃ a b : Int, parseIntJS (trimChars (piece0 t)) = some a ∧
          parseIntJS (trimChars (piece1 t)) = some b ∧ 1 ≤ a ∧ a ≤ b) ∧
      (∀ e, tokenResult t = .error e → e = "Invalid range: " ++ String.mk t)) ∧
    (∀ t : List Char, '-' ∉ t →
      ((∃ g, tokenResult t = .ok g) ↔
        ∃ n : Int, parseIntJS t = some n ∧ 1 ≤ n) ∧
      (∀ e, tokenResult t = .error e → e = "Invalid page number: " ++ String.mk t)) ∧
    parseInstructions "0-2" = .error "Invalid range: 0-2" ∧
    parseInstructions "3-1" = .error "Invalid range: 3-1" ∧
    parseInstructions "0" = .error "Invalid page number: 0" ∧
    parseInstructions "abc" = .error "Invalid page number: abc" := by
  refine ⟨?_, ?_, by rfl, by rfl, by rfl, by rfl⟩
  · intro t ht
    have htr := tokenResult_dash ht
    cases hpa : parseIntJS (trimChars (piece0 t)) with
    | none =>
      have he : tokenResult t = .error ("Invalid range: " ++ String.mk t) := by
        rw [htr, hpa]
      refine ⟨⟨fun ⟨g, hg⟩ => by rw [he] at hg; simp at hg,
        fun ⟨a', b', ha', _, _, _⟩ => by simp at ha'⟩,
        fun e' he' => by rw [he] at he'; injection he' with h; exact h.symm⟩
    | some a =>
      cases hpb : parseIntJS (trimChars (piece1 t)) with
      | none =>
        have he : tokenResult t = .error ("Invalid range: " ++ String.mk t) := by
          rw [htr, hpa, hpb]
        refine ⟨⟨fun ⟨g, hg⟩ => by rw [he] at hg; simp at hg,
          fun ⟨a', b', _, hb', _, _⟩ => by simp at hb'⟩,
          fun e' he' => by rw [he] at he'; injection he' with h; exact h.symm⟩
      | some b =>
        have he : tokenResult t =
            if a > b ∨ a < 1 then .error ("Invalid range: " ++ String.mk t)
            else .ok (intRangeIncl a b) := by
          rw [htr, hpa, hpb]
        by_cases hcond : a > b ∨ a < 1
        · rw [if_pos hcond] at he
          refine ⟨⟨fun ⟨g, hg⟩ => by rw [he] at hg; simp at hg,
            fun ⟨a', b', ha', hb', h1, h2⟩ => by
              injection ha' with ha'; injection hb' with hb'; omega⟩,
            fun e' he' => by rw [he] at he'; injection he' with h; exact h.symm⟩
        · rw [if_neg hcond] at he
          exact ⟨⟨fun _ => ⟨a, b, rfl, rfl, by omega, by omega⟩,
            fun _ => ⟨intRangeIncl a b, he⟩⟩,
            fun e' he' => by rw [he] at he'; simp at he'⟩
  · intro t ht
    cases hp : parseIntJS t with
    | none =>
      have he : tokenResult t = .error ("Invalid page number: " ++ String.mk t) := by
        unfold tokenResult; rw [if_neg ht, hp]
      refine ⟨⟨fun ⟨g, hg⟩ => by rw [he] at hg; simp at hg,
        fun ⟨n, hn, _⟩ => by simp at hn⟩,
        fun e' he' => by rw [he] at he'; injection he' with h; exact h.symm⟩
    | some p =>
      have he : tokenResult t =
          if p < 1 then .error ("Invalid page number: " ++ String.mk t)
          else .ok [p] := by
        unfold tokenResult; rw [if_neg ht, hp]
      by_cases h1 : p < 1
      · rw [if_pos h1] at he
        refine ⟨⟨fun ⟨g, hg⟩ => by rw [he] at hg; simp at hg,
          fun ⟨n, hn, hn1⟩ => by injection hn with hn; omega⟩,
          fun e' he' => by rw [he] at he'; injection he' with h; exact h.symm⟩
      · rw [if_neg h1] at he
        exact ⟨⟨fun _ => ⟨p, rfl, by omega⟩, fun _ => ⟨[p], he⟩⟩,
          fun e' he' => by rw [he] at he'; simp at he'⟩

/-- Witness for C3: the range-token clause applied at the concrete token
`0-2` (its start `0` violates `start ≥ 1`, so no success value exists). -/
theorem parse_failure_characterization_app :
    ¬ ∃ g, tokenResult ['0', '-', '2'] = .ok g := by
  intro hg
  obtain ⟨a, b, ha, hb, h1, h2⟩ :=
    ((parse_failure_characterization.1 ['0', '-', '2'] (by decide)).1).mp hg
  have ha' : a = 0 := by
    have : parseIntJS (trimChars (piece0 ['0', '-', '2'])) = some 0 := by rfl
    rw [this] at ha
    injection ha with ha
    exact ha.symm
  omega

/-- C6: for a token containing `'-'` (however many), only the first two
dash-delimited pieces are consumed: if they parse as integers `a ≤ b` with
`a ≥ 1` the token succeeds with the group `[a..b]`, trailing pieces
silently dropped; in particular `parse("1-2-3")` yields `[[1, 2]]`. -/
theorem multi_dash_truncated :
    (∀ (t : List Char), '-' ∈ t → ∀ a b : Int,
      parseIntJS (trimChars (piece0 t)) = some a →
      parseIntJS (trimChars (piece1 t)) = some b →
      1 ≤ a → a ≤ b →
      tokenResult t = .ok (intRangeIncl a b)) ∧
    parseInstructions "1-2-3" = .ok [[1, 2]] := by
  constructor
  · intro t ht a b hpa hpb h1 hab
    rw [tokenResult_dash ht]
    simp only [hpa, hpb]
    rw [if_neg (by omega)]
  · rfl

/-- Witness for C6 at the concrete token `1-2-3`: the general clause
applies with `a = 1`, `b = 2` and the third piece is dropped. -/
theorem multi_dash_truncated_app :
    tokenResult ['1', '-', '2', '-', '3'] = .ok [1, 2] := by
  have h := multi_dash_truncated.1 ['1', '-', '2', '-', '3'] (by decide)
    1 2 (by rfl) (by rfl) (by decide) (by decide)
  exact h

/-! ## Helper lemmas about the splitter -/

theorem validateGroup_eq_find (tp : Nat) (r : List Int) :
    validateGroup tp r =
      match r.find? (fun n => decide ((tp : Int) < n)) with
      | some n => .error ("Page " ++ toString n ++ " does not exist. PDF has "
          ++ toString tp ++ " pages.")
      | none => .ok () := by
  induction r with
  | nil => rfl
  | cons n ns ih =>
    by_cases h : n > (tp : Int)
    · rw [List.find?_cons_of_pos _ (by simpa using h)]
      simp only [validateGroup, if_pos h]
    · rw [List.find?_cons_of_neg _ (by simpa using h)]
      simp only [validateGroup, if_neg h]
      exact ih

theorem validatePages_eq_find (tp : Nat) (rs : List (List Int)) :
    validatePages tp rs =
      match rs.flatten.find? (fun n => decide ((tp : Int) < n)) with
      | some n => .error ("Page " ++ toString n ++ " does not exist. PDF has "
          ++ toString tp ++ " pages.")
      | none => .ok () := by
  induction rs with
  | nil => rfl
  | cons r rest ih =>
    simp only [validatePages, validateGroup_eq_find, List.flatten_cons, List.find?_append]
    cases hr : r.find? (fun n => decide ((tp : Int) < n)) with
    | some n => simp [Option.or]
    | none => simp only [Option.none_or]; exact ih

theorem copyAll_in_bounds {α : Type} (doc : List α) (d : α) :
    ∀ r : List Int, (∀ n ∈ r, 1 ≤ n ∧ n ≤ (doc.length : Int)) →
    copyAll doc r = .ok (r.map (fun n => doc.getD (n - 1).toNat d)) := by
  intro r
  induction r with
  | nil => intro _; rfl
  | cons n ns ih =>
    intro h
    obtain ⟨h1, h2⟩ := h n (List.mem_cons_self _ _)
    have hb : 0 ≤ n - 1 ∧ (n - 1).toNat < doc.length := by omega
    have hget : doc.getD (n - 1).toNat d = doc.get ⟨(n - 1).toNat, hb.2⟩ := by
      rw [List.getD_eq_getElem doc d hb.2]
      simp [List.get_eq_getElem]
    simp only [copyAll, copyPage, dif_pos hb,
      ih (fun m hm => h m (List.mem_cons_of_mem _ hm)), List.map_cons, hget]

/-- Unrolling of the per-group loop on success. -/
theorem buildResults_ok {α : Type} (doc : List α) (base : String) :
    ∀ (rs : List (List Int)) (out : List (SplitResult α)),
    buildResults doc base rs = .ok out →
    out.length = rs.length ∧
      ∀ i (hi : i < rs.length) (ho : i < out.length),
        (out.get ⟨i, ho⟩).pages = rs.get ⟨i, hi⟩ ∧
        (out.get ⟨i, ho⟩).filename = nameFor base (rs.get ⟨i, hi⟩) ∧
        copyAll doc (rs.get ⟨i, hi⟩) = .ok (out.get ⟨i, ho⟩).data := by
  intro rs
  induction rs with
  | nil =>
    intro out h
    simp only [buildResults, Except.ok.injEq] at h
    subst h
    exact ⟨rfl, fun i hi => by simp at hi⟩
  | cons r rest ih =>
    intro out h
    simp only [buildResults] at h
    cases hc : copyAll doc r with
    | error e => rw [hc] at h; simp at h
    | ok ps =>
      rw [hc] at h
      cases hrest : buildResults doc base rest with
      | error e => rw [hrest] at h; simp at h
      | ok out' =>
        rw [hrest] at h
        simp only [Except.ok.injEq] at h
        subst h
        obtain ⟨hlen, hall⟩ := ih out' hrest
        refine ⟨by simp [hlen], ?_⟩
        intro i hi ho
        cases i with
        | zero => exact ⟨rfl, rfl, by simpa using hc⟩
        | succ j =>
          simpa using hall j (by simpa using hi) (by simpa using ho)

/-- When every referenced page is in bounds, the per-group loop succeeds
and the concatenated output pages are the flattened groups' pages. -/
theorem buildResults_in_bounds {α : Type} (doc : List α) (base : String) (d : α) :
    ∀ rs : List (List Int), (∀ n ∈ rs.flatten, 1 ≤ n ∧ n ≤ (doc.length : Int)) →
    ∃ out, buildResults doc base rs = .ok out ∧
      (out.map (fun r => r.data)).flatten
        = rs.flatten.map (fun n => doc.getD (n - 1).toNat d) := by
  intro rs
  induction rs with
  | nil => intro _; exact ⟨[], rfl, rfl⟩
  | cons r rest ih =>
    intro h
    have hr : ∀ n ∈ r, 1 ≤ n ∧ n ≤ (doc.length : Int) := fun n hn =>
      h n (by rw [List.flatten_cons]; exact List.mem_append_left _ hn)
    have hrest : ∀ n ∈ rest.flatten, 1 ≤ n ∧ n ≤ (doc.length : Int) := fun n hn =>
      h n (by rw [List.flatten_cons]; exact List.mem_append_right _ hn)
    obtain ⟨out', hout', hflat'⟩ := ih hrest
    refine ⟨{ filename := nameFor base r,
              data := r.map (fun n => doc.getD (n - 1).toNat d), pages := r,
              size := (r.map (fun n => doc.getD (n - 1).toNat d)).length } :: out',
      ?_, ?_⟩
    · simp only [buildResults, copyAll_in_bounds doc d r hr, hout']
    · simp only [List.map_cons, List.flatten_cons, hflat', List.map_append]

theorem getD_range_eq_self {α : Type} (l : List α) (d : α) :
    (List.range l.length).map (fun k => l.getD k d) = l := by
  induction l with
  | nil => rfl
  | cons a t ih =>
    rw [List.length_cons, List.range_succ_eq_map, List.map_cons, List.map_map]
    have hcong : (List.range t.length).map ((fun k => (a :: t).getD k d) ∘ Nat.succ)
        = (List.range t.length).map (fun k => t.getD k d) :=
      List.map_congr_left (fun k _ => rfl)
    rw [hcong, ih]
    rfl

/-- Shape of `splitPdf` when validation and building succeed. -/
theorem splitPdf_ok_shape {α : Type} (doc : List α) (ranges : List (List Int))
    (name : String) (z : Bool) (out : List (SplitResult α))
    (hval : validatePages doc.length ranges = .ok ())
    (hbuild : buildResults doc (stemOf name) ranges = .ok out) :
    splitPdf (.ok doc) ranges name z =
      if z then
        { success := true, results := out,
          zipBuffer := some (out.map (fun r => (r.filename, r.data))),
          zipFilename := some (stemOf name ++ "-split.zip") }
      else { success := true, results := out } := by
  simp only [splitPdf, hval, hbuild]

/-- Inversion of a successful `splitPdf`. -/
theorem splitPdf_success_inv {α : Type} (loadResult : Except String (List α))
    (ranges : List (List Int)) (name : String) (z : Bool)
    (h : (splitPdf loadResult ranges name z).success = true) :
    ∃ doc out, loadResult = .ok doc ∧
      validatePages doc.length ranges = .ok () ∧
      buildResults doc (stemOf name) ranges = .ok out ∧
      (splitPdf loadResult ranges name z).results = out ∧
      (z = true →
        (splitPdf loadResult ranges name z).zipBuffer
            = some (out.map (fun r => (r.filename, r.data))) ∧
          (splitPdf loadResult ranges name z).zipFilename
            = some (stemOf name ++ "-split.zip")) ∧
      (splitPdf loadResult ranges name z).error = none := by
  cases loadResult with
  | error e => simp [splitPdf] at h
  | ok doc =>
    cases hval : validatePages doc.length ranges with
    | error e => simp [splitPdf, hval] at h
    | ok u =>
      cases u
      cases hbuild : buildResults doc (stemOf name) ranges with
      | error e => simp [splitPdf, hval, hbuild] at h
      | ok out =>
        refine ⟨doc, out, rfl, hval, hbuild, ?_, ?_, ?_⟩ <;>
          cases z <;> simp [splitPdf, hval, hbuild]

/-- C2 counterexample: page index `0` violates `1 ≤ index`, yet the
validation loop passes it (only the upper bound is checked), and `split`
does not fail with the claimed message `Page 0 does not exist. PDF has 3
pages.` (it fails later, at the page copy, with a different error). -/
theorem split_lower_bound_unchecked_cex :
    validatePages 3 [[0]] = .ok () ∧
    ((0 : Int) < 1) ∧
    (splitPdf (Except.ok ([10, 20, 30] : List Nat)) [[0]] "doc.pdf" false).error
      ≠ some "Page 0 does not exist. PDF has 3 pages." ∧
    (splitPdf (Except.ok ([10, 20, 30] : List Nat)) [[0]] "doc.pdf" false).success
      = false := by
  exact ⟨by rfl, by decide, by decide, by rfl⟩

/-- C2 amended: before producing any output, `split` checks every page
index of every group against the upper bound `index ≤ totalPages` only; on
the first index `N` (group order, then in-group order) with
`N > totalPages` it fails with the exact message
`Page <N> does not exist. PDF has <totalPages> pages.` and returns no
outputs at all.  Indices below `1` are not caught by this validation. -/
theorem split_upper_bound_validation {α : Type} (doc : List α)
    (ranges : List (List Int)) (name : String) (z : Bool) (N : Int)
    (h : ranges.flatten.find? (fun n => decide ((doc.length : Int) < n)) = some N) :
    splitPdf (.ok doc) ranges name z =
      { success := false, results := [],
        error := some ("Page " ++ toString N ++ " does not exist. PDF has "
          ++ toString doc.length ++ " pages.") } := by
  have hval : validatePages doc.length ranges
      = .error ("Page " ++ toString N ++ " does not exist. PDF has "
          ++ toString doc.length ++ " pages.") := by
    rw [validatePages_eq_find, h]
  simp only [splitPdf, hval]

/-- Witness for amended C2: the spec's failure scenario `"1-3,25"` on a
20-page source fails with `Page 25 does not exist. PDF has 20 pages.` and
returns no outputs. -/
theorem split_upper_bound_validation_app :
    splitPdf (Except.ok ((List.range 20).map (fun k => k + 1)))
        [[1, 2, 3], [25]] "doc.pdf" true =
      { success := false, results := [],
        error := some "Page 25 does not exist. PDF has 20 pages." } := by
  have h := split_upper_bound_validation
    ((List.range 20).map (fun k => k + 1)) [[1, 2, 3], [25]] "doc.pdf" true 25
    (by rfl)
  simpa using h

/-- C4 counterexample: the instruction string `"2,1"` covers every page of
a 2-page document exactly once (its flattened groups are a permutation of
`[1, 2]`), the split succeeds, but concatenating the outputs in group
order yields the pages in the order `[20, 10]`, not the original
`[10, 20]`. -/
theorem split_roundtrip_cex :
    parseInstructions "2,1" = .ok [[2], [1]] ∧
    ([[2], [1]] : List (List Int)).flatten.Perm [1, 2] ∧
    (splitPdfFromInstructions (Except.ok ([10, 20] : List Nat)) "2,1" "doc.pdf"
      false).success = true ∧
    ((splitPdfFromInstructions (Except.ok ([10, 20] : List Nat)) "2,1" "doc.pdf"
        false).results.map (fun r => r.data)).flatten ≠ [10, 20] := by
  exact ⟨by rfl, by decide, by rfl, by decide⟩

/-- C4 amended: for any source document and any instruction string whose
parsed groups flatten to exactly `1, 2, ..., totalPages` in ascending
order (each page exactly once, in original order), splitting succeeds and
concatenating the output documents' pages in group order yields exactly
the original page sequence. -/
theorem split_roundtrip {α : Type} (d : α) (doc : List α) (instr name : String)
    (z : Bool) (ranges : List (List Int))
    (hparse : parseInstructions instr = .ok ranges)
    (hcover : ranges.flatten
      = (List.range doc.length).map (fun k => ((k + 1 : Nat) : Int))) :
    (splitPdfFromInstructions (.ok doc) instr name z).success = true ∧
    ((splitPdfFromInstructions (.ok doc) instr name z).results.map
      (fun r => r.data)).flatten = doc := by
  have hb : ∀ n ∈ ranges.flatten, 1 ≤ n ∧ n ≤ (doc.length : Int) := by
    rw [hcover]
    intro n hn
    simp only [List.mem_map, List.mem_range] at hn
    obtain ⟨k, hk, rfl⟩ := hn
    omega
  have hval : validatePages doc.length ranges = .ok () := by
    rw [validatePages_eq_find,
      List.find?_eq_none.mpr (fun x hx => by simpa using not_lt.mpr (hb x hx).2)]
  obtain ⟨out, hout, hflat⟩ := buildResults_in_bounds doc (stemOf name) d ranges hb
  have hshape := splitPdf_ok_shape doc ranges name z out hval hout
  have hdata : (out.map (fun r => r.data)).flatten = doc := by
    rw [hflat, hcover, List.map_map]
    have hcong : (List.range doc.length).map
          ((fun n => doc.getD (n - 1).toNat d) ∘ (fun k => ((k + 1 : Nat) : Int)))
        = (List.range doc.length).map (fun k => doc.getD k d) :=
      List.map_congr_left (fun k _ => by
        simp only [Function.comp]
        congr 1
        omega)
    rw [hcong, getD_range_eq_self]
  simp only [splitPdfFromInstructions, hparse, hshape]
  cases z <;> simp [hdata]

/-- Witness for amended C4: `"1-2,3"` on the 3-page document `[10, 20, 30]`
covers pages 1..3 in order; the reassembled output equals the original. -/
theorem split_roundtrip_app :
    (splitPdfFromInstructions (Except.ok ([10, 20, 30] : List Nat)) "1-2,3"
      "doc.pdf" false).success = true ∧
    ((splitPdfFromInstructions (Except.ok ([10, 20, 30] : List Nat)) "1-2,3"
        "doc.pdf" false).results.map (fun r => r.data)).flatten = [10, 20, 30] := by
  exact split_roundtrip 0 [10, 20, 30] "1-2,3" "doc.pdf" false [[1, 2], [3]]
    (by rfl) (by rfl)

/-- C5: output naming is bit-exact.  With `stem` the original filename
without its final extension, a one-page group `[N]` yields
`<stem>-page-<N>.pdf`, a larger group yields
`<stem>-pages-<first>-<last>.pdf` from its first and last elements as
parsed, and the archive is `<stem>-split.zip`; including the spec's
12-page `report.pdf` scenario. -/
theorem split_output_naming {α : Type} (loadResult : Except String (List α))
    (ranges : List (List Int)) (name : String) (z : Bool) :
    ((splitPdf loadResult ranges name z).success = true →
      (∀ (i : Nat) (r : SplitResult α) (g : List Int),
        (splitPdf loadResult ranges name z).results.get? i = some r →
        ranges.get? i = some g →
        (∀ n : Int, g = [n] →
          r.filename = stemOf name ++ "-page-" ++ toString n ++ ".pdf") ∧
        (∀ a b : Int, 2 ≤ g.length → g.head? = some a → g.getLast? = some b →
          r.filename
            = stemOf name ++ "-pages-" ++ toString a ++ "-" ++ toString b ++ ".pdf")) ∧
      (z = true → (splitPdf loadResult ranges name z).zipFilename
        = some (stemOf name ++ "-split.zip"))) ∧
    (splitPdfFromInstructions (Except.ok ([1, 2, 3, 4, 5, 6, 7, 8, 9, 10, 11, 12] : List Nat))
        "1-3, 5-7, 10" "report.pdf" true).results.map (fun r => r.filename)
      = ["report-pages-1-3.pdf", "report-pages-5-7.pdf", "report-page-10.pdf"] ∧
    (splitPdfFromInstructions (Except.ok ([1, 2, 3, 4, 5, 6, 7, 8, 9, 10, 11, 12] : List Nat))
        "1-3, 5-7, 10" "report.pdf" true).zipFilename = some "report-split.zip" := by
  refine ⟨?_, by rfl, by rfl⟩
  intro hs
  obtain ⟨doc, out, hload, hval, hbuild, hres, hzip, herr⟩ :=
    splitPdf_success_inv loadResult ranges name z hs
  obtain ⟨hlen, hall⟩ := buildResults_ok doc (stemOf name) ranges out hbuild
  constructor
  · intro i r g hri hgi
    rw [hres] at hri
    obtain ⟨ho, hr_eq⟩ := List.get?_eq_some.mp hri
    obtain ⟨hgr, hg_eq⟩ := List.get?_eq_some.mp hgi
    have hfile := (hall i hgr ho).2.1
    rw [hr_eq, hg_eq] at hfile
    constructor
    · intro n hgn
      rw [hgn] at hfile
      rw [hfile]
      rfl
    · intro a b h2 hhead hlast
      have hform : nameFor (stemOf name) g = stemOf name ++ "-pages-"
          ++ jsShow g.head? ++ "-" ++ jsShow g.getLast? ++ ".pdf" := by
        unfold nameFor
        rw [if_neg (by omega)]
      rw [hfile, hform, hhead, hlast]
      rfl
  · intro hz
    exact (hzip hz).2

/-- Witness for C5's general clause, applied at the 12-page scenario: the
archive filename is `report-split.zip`. -/
theorem split_output_naming_app :
    (splitPdf (Except.ok ([1, 2, 3, 4, 5, 6, 7, 8, 9, 10, 11, 12] : List Nat))
        [[1, 2, 3], [5, 6, 7], [10]] "report.pdf" true).zipFilename
      = some "report-split.zip" := by
  have h := (split_output_naming
    (Except.ok ([1, 2, 3, 4, 5, 6, 7, 8, 9, 10, 11, 12] : List Nat))
    [[1, 2, 3], [5, 6, 7], [10]] "report.pdf" true).1 (by rfl)
  have hz := h.2 rfl
  rw [hz]
  rfl

/-- C7: structural invariants of a successful split with archive: one
output per group, in group order, the i-th output's `pages` field equal to
the i-th group; the archive holds exactly one entry per output, named by
the output filename, in the same order, so its entry count equals the
group count. -/
theorem split_structure {α : Type} (loadResult : Except String (List α))
    (ranges : List (List Int)) (name : String)
    (h : (splitPdf loadResult ranges name true).success = true) :
    (splitPdf loadResult ranges name true).results.length = ranges.length ∧
    (∀ (i : Nat) (r : SplitResult α) (g : List Int),
      (splitPdf loadResult ranges name true).results.get? i = some r →
      ranges.get? i = some g → r.pages = g) ∧
    ∃ entries, (splitPdf loadResult ranges name true).zipBuffer = some entries ∧
      entries = (splitPdf loadResult ranges name true).results.map
        (fun r => (r.filename, r.data)) ∧
      entries.length = ranges.length := by
  obtain ⟨doc, out, hload, hval, hbuild, hres, hzip, herr⟩ :=
    splitPdf_success_inv loadResult ranges name true h
  obtain ⟨hlen, hall⟩ := buildResults_ok doc (stemOf name) ranges out hbuild
  refine ⟨by rw [hres, hlen], ?_, ?_⟩
  · intro i r g hri hgi
    rw [hres] at hri
    obtain ⟨ho, hr_eq⟩ := List.get?_eq_some.mp hri
    obtain ⟨hgr, hg_eq⟩ := List.get?_eq_some.mp hgi
    have hp := (hall i hgr ho).1
    rw [hr_eq, hg_eq] at hp
    exact hp
  · obtain ⟨hzb, _⟩ := hzip rfl
    refine ⟨out.map (fun r => (r.filename, r.data)), hzb, by rw [hres], ?_⟩
    rw [List.length_map, hlen]

/-- Witness for C7 at a concrete two-group split. -/
theorem split_structure_app :
    (splitPdf (Except.ok ([10, 20, 30] : List Nat)) [[1, 2], [3]] "doc.pdf"
      true).results.length = ([[1, 2], [3]] : List (List Int)).length := by
  exact (split_structure (Except.ok ([10, 20, 30] : List Nat)) [[1, 2], [3]]
    "doc.pdf" (by rfl)).1

/-- C9: `splitPdf` and `splitPdfFromInstructions` are total result-valued
functions: every failure is returned as a value with `success = false`, an
empty result list and an error message present, while `success = true`
implies the error field is absent and `results` holds one entry per
group. -/
theorem split_total_result_shape {α : Type} (loadResult : Except String (List α))
    (ranges : List (List Int)) (instr name : String) (z : Bool) :
    ((splitPdf loadResult ranges name z).success = false →
      (splitPdf loadResult ranges name z).results = [] ∧
      (splitPdf loadResult ranges name z).error.isSome = true) ∧
    ((splitPdf loadResult ranges name z).success = true →
      (splitPdf loadResult ranges name z).error = none ∧
      (splitPdf loadResult ranges name z).results.length = ranges.length) ∧
    ((splitPdfFromInstructions loadResult instr name z).success = false →
      (splitPdfFromInstructions loadResult instr name z).results = [] ∧
      (splitPdfFromInstructions loadResult instr name z).error.isSome = true) ∧
    ((splitPdfFromInstructions loadResult instr name z).success = true →
      (splitPdfFromInstructions loadResult instr name z).error = none ∧
      ∃ gs, parseInstructions instr = .ok gs ∧
        (splitPdfFromInstructions loadResult instr name z).results.length
          = gs.length) := by
  have base : ∀ rs : List (List Int),
      ((splitPdf loadResult rs name z).success = false →
        (splitPdf loadResult rs name z).results = [] ∧
        (splitPdf loadResult rs name z).error.isSome = true) ∧
      ((splitPdf loadResult rs name z).success = true →
        (splitPdf loadResult rs name z).error = none ∧
        (splitPdf loadResult rs name z).results.length = rs.length) := by
    intro rs
    cases loadResult with
    | error e =>
      constructor
      · intro _; exact ⟨rfl, rfl⟩
      · intro hs; simp [splitPdf] at hs
    | ok doc =>
      cases hval : validatePages doc.length rs with
      | error e =>
        constructor
        · intro _; simp [splitPdf, hval]
        · intro hs; simp [splitPdf, hval] at hs
      | ok u =>
        cases u
        cases hbuild : buildResults doc (stemOf name) rs with
        | error e =>
          constructor
          · intro _; simp [splitPdf, hval, hbuild]
          · intro hs; simp [splitPdf, hval, hbuild] at hs
        | ok out =>
          have hlen := (buildResults_ok doc (stemOf name) rs out hbuild).1
          constructor
          · intro hs; cases z <;> simp [splitPdf, hval, hbuild] at hs
          · intro _; cases z <;> simp [splitPdf, hval, hbuild, hlen]
  refine ⟨(base ranges).1, (base ranges).2, ?_, ?_⟩
  · intro hs
    cases hp : parseInstructions instr with
    | error e => simp [splitPdfFromInstructions, hp]
    | ok gs =>
      rw [splitPdfFromInstructions, hp] at hs ⊢
      exact (base gs).1 hs
  · intro hs
    cases hp : parseInstructions instr with
    | error e => rw [splitPdfFromInstructions, hp] at hs; simp at hs
    | ok gs =>
      rw [splitPdfFromInstructions, hp] at hs ⊢
      obtain ⟨he, hl⟩ := (base gs).2 hs
      exact ⟨he, gs, rfl, hl⟩

/-- Witness for C9: a parse failure surfaces as a failure value with no
results and an error present. -/
theorem split_total_result_shape_app :
    (splitPdfFromInstructions (Except.ok ([1] : List Nat)) "abc" "a.pdf"
      false).results = [] ∧
    (splitPdfFromInstructions (Except.ok ([1] : List Nat)) "abc" "a.pdf"
      false).error.isSome = true := by
  exact (split_total_result_shape (Except.ok ([1] : List Nat)) [] "abc" "a.pdf"
    false).2.2.1 (by rfl)

/-! ## Helper lemmas about the job store -/

theorem mapGet_set_self (m : JobStore) (k : String) (v : PdfJob) :
    mapGet (mapSet m k v) k = some v := by
  induction m with
  | nil => simp [mapSet, mapGet]
  | cons p rest ih =>
    obtain ⟨k', v'⟩ := p
    by_cases h : k' = k
    · simp [mapSet, mapGet, h]
    · simp only [mapSet, if_neg h, mapGet]
      exact ih

theorem mapGet_set_other (m : JobStore) (k k' : String) (v : PdfJob)
    (h : k' ≠ k) : mapGet (mapSet m k v) k' = mapGet m k' := by
  have hk : ¬(k = k') := fun e => h e.symm
  induction m with
  | nil =>
    show mapGet [(k, v)] k' = mapGet [] k'
    simp only [mapGet]
    rw [if_neg hk]
  | cons p rest ih =>
    obtain ⟨ka, va⟩ := p
    by_cases hka : ka = k
    · subst hka
      simp only [mapSet, if_pos rfl, mapGet]
      rw [if_neg hk, if_neg hk]
    · simp only [mapSet, if_neg hka, mapGet]
      by_cases hka' : ka = k'
      · rw [if_pos hka', if_pos hka']
      · rw [if_neg hka', if_neg hka']
        exact ih

theorem updatePdfJob_of_get_none (m : JobStore) (id : String)
    (p : PdfJobPatch) (h : mapGet m id = none) :
    updatePdfJob m id p = (none, m) := by
  unfold updatePdfJob
  rw [h]

theorem updatePdfJob_of_get_some (m : JobStore) (id : String)
    (p : PdfJobPatch) (j : PdfJob) (h : mapGet m id = some j) :
    updatePdfJob m id p = (some (mergePatch j p), mapSet m id (mergePatch j p)) := by
  unfold updatePdfJob
  rw [h]

/-- C10: `MemStorage.updatePdfJob` on an absent id returns `undefined` and
leaves the store completely unchanged; on a present id it replaces exactly
the fields present in the patch, keeps every other field of the record and
every other record in the store unchanged, and returns the updated
record. -/
theorem updatePdfJob_frame (store : JobStore) (id : String) (patch : PdfJobPatch) :
    (mapGet store id = none → updatePdfJob store id patch = (none, store)) ∧
    (∀ j, mapGet store id = some j →
      updatePdfJob store id patch
          = (some (mergePatch j patch), mapSet store id (mergePatch j patch)) ∧
        mapGet (updatePdfJob store id patch).2 id = some (mergePatch j patch) ∧
        (∀ id', id' ≠ id →
          mapGet (updatePdfJob store id patch).2 id' = mapGet store id') ∧
        (patch.status = none → (mergePatch j patch).status = j.status) ∧
        (∀ v, patch.status = some v → (mergePatch j patch).status = v) ∧
        (patch.resultFiles = none →
          (mergePatch j patch).resultFiles = j.resultFiles) ∧
        (∀ v, patch.resultFiles = some v → (mergePatch j patch).resultFiles = v) ∧
        (patch.errorMessage = none →
          (mergePatch j patch).errorMessage = j.errorMessage) ∧
        (∀ v, patch.errorMessage = some v → (mergePatch j patch).errorMessage = v) ∧
        (patch.id = none → (mergePatch j patch).id = j.id) ∧
        (patch.originalFilename = none →
          (mergePatch j patch).originalFilename = j.originalFilename) ∧
        (patch.instructions = none →
          (mergePatch j patch).instructions = j.instructions) ∧
        (patch.createdAt = none → (mergePatch j patch).createdAt = j.createdAt)) := by
  refine ⟨updatePdfJob_of_get_none store id patch, ?_⟩
  intro j h
  have hupd := updatePdfJob_of_get_some store id patch j h
  refine ⟨hupd, ?_, ?_, ?_, ?_, ?_, ?_, ?_, ?_, ?_, ?_, ?_, ?_⟩
  · rw [hupd]
    exact mapGet_set_self store id (mergePatch j patch)
  · intro id' hid'
    rw [hupd]
    exact mapGet_set_other store id id' (mergePatch j patch) hid'
  · intro hp; simp [mergePatch, hp]
  · intro v hp; simp [mergePatch, hp]
  · intro hp; simp [mergePatch, hp]
  · intro v hp; simp [mergePatch, hp]
  · intro hp; simp [mergePatch, hp]
  · intro v hp; simp [mergePatch, hp]
  · intro hp; simp [mergePatch, hp]
  · intro hp; simp [mergePatch, hp]
  · intro hp; simp [mergePatch, hp]
  · intro hp; simp [mergePatch, hp]

/-- Witness for C10 at a concrete store: an absent id leaves the empty
store unchanged, and updating a present id keeps the unpatched fields. -/
theorem updatePdfJob_frame_app :
    updatePdfJob [] "absent" (failedPatch "boom") = (none, []) ∧
    (mergePatch
        { id := "a", originalFilename := "f.pdf", instructions := "1",
          status := "processing", resultFiles := none, errorMessage := none,
          createdAt := 7 }
        (completedPatch ["f-page-1.pdf"])).instructions = "1" := by
  constructor
  · exact (updatePdfJob_frame [] "absent" (failedPatch "boom")).1 (by rfl)
  · exact ((updatePdfJob_frame
      [("a", { id := "a", originalFilename := "f.pdf", instructions := "1",
               status := "processing", resultFiles := none, errorMessage := none,
               createdAt := 7 })] "a" (completedPatch ["f-page-1.pdf"])).2
      { id := "a", originalFilename := "f.pdf", instructions := "1",
        status := "processing", resultFiles := none, errorMessage := none,
        createdAt := 7 } (by rfl)).2.2.2.2.2.2.2.2.2.2.2.1 rfl

/-- C8: over the handling of one request, either the upload is rejected
before any job record exists (no storage mutation at all), or a job record
is created in status "processing" with `resultFiles` and `errorMessage`
absent and is then mutated exactly once: to "completed" together with the
result filenames (zip response) or to "failed" together with the captured
error message (re-surfaced as the error response).  Every other record is
left unchanged; the storage interface defines no deletion operation. -/
theorem job_lifecycle {α : Type} (store : JobStore) (freshId : String)
    (now : Nat) (req : SplitRequest α)
    (_hfresh : mapGet store freshId = none) :
    ((handleSplitPdf store freshId now req).ops = [] ∧
      (handleSplitPdf store freshId now req).store = store) ∨
    ∃ job patch,
      (handleSplitPdf store freshId now req).ops
          = [StorageOp.create freshId job, StorageOp.update freshId patch] ∧
      job.status = "processing" ∧ job.resultFiles = none ∧
      job.errorMessage = none ∧
      ((∃ files, patch = completedPatch files ∧
          ∃ fn entries,
            (handleSplitPdf store freshId now req).response = .zipFile fn entries) ∨
        (∃ msg, patch = failedPatch msg ∧
          (handleSplitPdf store freshId now req).response = .serverError msg)) ∧
      mapGet (handleSplitPdf store freshId now req).store freshId
          = some (mergePatch job patch) ∧
      (∀ id', id' ≠ freshId →
        mapGet (handleSplitPdf store freshId now req).store id'
          = mapGet store id') := by
  cases req with
  | mk file instructions =>
    cases file with
    | none => exact Or.inl ⟨rfl, rfl⟩
    | some f =>
      by_cases hmime : f.mimetype ≠ "application/pdf"
      · exact Or.inl ⟨by simp [handleSplitPdf, hmime], by simp [handleSplitPdf, hmime]⟩
      · cases instructions with
        | none =>
          exact Or.inl ⟨by simp [handleSplitPdf, hmime], by simp [handleSplitPdf, hmime]⟩
        | some instr =>
          by_cases hl : instr.length < 1
          · exact Or.inl ⟨by simp [handleSplitPdf, hmime, hl],
              by simp [handleSplitPdf, hmime, hl]⟩
          · right
            cases hs : (splitPdfFromInstructions f.loadResult instr
                f.originalname true : SplitPdfResult α).success with
            | true =>
              refine ⟨{ id := freshId, originalFilename := f.originalname,
                        instructions := instr, status := "processing",
                        resultFiles := none, errorMessage := none,
                        createdAt := now },
                completedPatch ((splitPdfFromInstructions f.loadResult instr
                  f.originalname true).results.map (fun r => r.filename)),
                by simp [handleSplitPdf, hmime, hl, createPdfJob, hs], rfl,
                rfl, rfl, ?_, ?_, ?_⟩
              · exact Or.inl ⟨(splitPdfFromInstructions f.loadResult instr
                    f.originalname true).results.map (fun r => r.filename), rfl,
                  (splitPdfFromInstructions f.loadResult instr
                    f.originalname true).zipFilename.getD "",
                  (splitPdfFromInstructions f.loadResult instr
                    f.originalname true).zipBuffer.getD [],
                  by simp [handleSplitPdf, hmime, hl, createPdfJob, hs]⟩
              · have hstore : (handleSplitPdf store freshId now
                    (⟨some f, some instr⟩ : SplitRequest α)).store
                    = mapSet (mapSet store freshId
                          { id := freshId, originalFilename := f.originalname,
                            instructions := instr, status := "processing",
                            resultFiles := none, errorMessage := none,
                            createdAt := now }) freshId
                        (mergePatch
                          { id := freshId, originalFilename := f.originalname,
                            instructions := instr, status := "processing",
                            resultFiles := none, errorMessage := none,
                            createdAt := now } (completedPatch
                          ((splitPdfFromInstructions f.loadResult instr
                            f.originalname true).results.map (fun r => r.filename)))) := by
                  simp only [handleSplitPdf, hmime, ite_false, reduceCtorEq,
                    if_neg hl, hs, if_true, createPdfJob,
                    updatePdfJob_of_get_some _ _ _ _ (mapGet_set_self store freshId _)]
                rw [hstore]
                exact mapGet_set_self _ _ _
              · intro id' hid'
                have hstore : (handleSplitPdf store freshId now
                    (⟨some f, some instr⟩ : SplitRequest α)).store
                    = mapSet (mapSet store freshId
                          { id := freshId, originalFilename := f.originalname,
                            instructions := instr, status := "processing",
                            resultFiles := none, errorMessage := none,
                            createdAt := now }) freshId
                        (mergePatch
                          { id := freshId, originalFilename := f.originalname,
                            instructions := instr, status := "processing",
                            resultFiles := none, errorMessage := none,
                            createdAt := now } (completedPatch
                          ((splitPdfFromInstructions f.loadResult instr
                            f.originalname true).results.map (fun r => r.filename)))) := by
                  simp only [handleSplitPdf, hmime, ite_false, reduceCtorEq,
                    if_neg hl, hs, if_true, createPdfJob,
                    updatePdfJob_of_get_some _ _ _ _ (mapGet_set_self store freshId _)]
                rw [hstore, mapGet_set_other _ _ _ _ hid',
                  mapGet_set_other _ _ _ _ hid']
            | false =>
              refine ⟨{ id := freshId, originalFilename := f.originalname,
                        instructions := instr, status := "processing",
                        resultFiles := none, errorMessage := none,
                        createdAt := now },
                failedPatch (match (splitPdfFromInstructions f.loadResult instr
                    f.originalname true).error with
                  | some e => if e = "" then "Failed to split PDF" else e
                  | none => "Failed to split PDF"),
                by simp [handleSplitPdf, hmime, hl, createPdfJob, hs], rfl,
                rfl, rfl, ?_, ?_, ?_⟩
              · exact Or.inr ⟨(match (splitPdfFromInstructions f.loadResult instr
                    f.originalname true).error with
                  | some e => if e = "" then "Failed to split PDF" else e
                  | none => "Failed to split PDF"), rfl,
                  by simp [handleSplitPdf, hmime, hl, createPdfJob, hs]⟩
              · have hstore : (handleSplitPdf store freshId now
                    (⟨some f, some instr⟩ : SplitRequest α)).store
                    = mapSet (mapSet store freshId
                          { id := freshId, originalFilename := f.originalname,
                            instructions := instr, status := "processing",
                            resultFiles := none, errorMessage := none,
                            createdAt := now }) freshId
                        (mergePatch
                          { id := freshId, originalFilename := f.originalname,
                            instructions := instr, status := "processing",
                            resultFiles := none, errorMessage := none,
                            createdAt := now } (failedPatch
                          (match (splitPdfFromInstructions f.loadResult instr
                              f.originalname true).error with
                            | some e => if e = "" then "Failed to split PDF" else e
                            | none => "Failed to split PDF"))) := by
                  simp only [handleSplitPdf, hmime, ite_false, reduceCtorEq,
                    if_neg hl, hs, Bool.false_eq_true, if_false, createPdfJob,
                    updatePdfJob_of_get_some _ _ _ _ (mapGet_set_self store freshId _)]
                rw [hstore]
                exact mapGet_set_self _ _ _
              · intro id' hid'
                have hstore : (handleSplitPdf store freshId now
                    (⟨some f, some instr⟩ : SplitRequest α)).store
                    = mapSet (mapSet store freshId
                          { id := freshId, originalFilename := f.originalname,
                            instructions := instr, status := "processing",
                            resultFiles := none, errorMessage := none,
                            createdAt := now }) freshId
                        (mergePatch
                          { id := freshId, originalFilename := f.originalname,
                            instructions := instr, status := "processing",
                            resultFiles := none, errorMessage := none,
                            createdAt := now } (failedPatch
                          (match (splitPdfFromInstructions f.loadResult instr
                              f.originalname true).error with
                            | some e => if e = "" then "Failed to split PDF" else e
                            | none => "Failed to split PDF"))) := by
                  simp only [handleSplitPdf, hmime, ite_false, reduceCtorEq,
                    if_neg hl, hs, Bool.false_eq_true, if_false, createPdfJob,
                    updatePdfJob_of_get_some _ _ _ _ (mapGet_set_self store freshId _)]
                rw [hstore, mapGet_set_other _ _ _ _ hid',
                  mapGet_set_other _ _ _ _ hid']

/-- Witness for C8 at a concrete request on an empty store: a request whose
instructions fail to parse creates one job and updates it exactly once to
"failed" with the parse error surfaced in the 500 response. -/
theorem job_lifecycle_app :
    (handleSplitPdf ([] : JobStore) "id1" 0
      (⟨some ⟨"a.pdf", "application/pdf", Except.ok ([1] : List Nat)⟩,
        some "abc"⟩ : SplitRequest Nat)).ops.length = 2 := by
  have h := job_lifecycle ([] : JobStore) "id1" 0
    (⟨some ⟨"a.pdf", "application/pdf", Except.ok ([1] : List Nat)⟩,
      some "abc"⟩ : SplitRequest Nat) (by rfl)
  rcases h with ⟨hops, _⟩ | ⟨job, patch, hops, _⟩
  · have h2 : (handleSplitPdf ([] : JobStore) "id1" 0
        (⟨some ⟨"a.pdf", "application/pdf", Except.ok ([1] : List Nat)⟩,
          some "abc"⟩ : SplitRequest Nat)).ops.length = 2 := by rfl
    exact h2
  · rw [hops]
    rfl
